import Mathlib

set_option maxRecDepth 100000

/-!
Shallow embedding of `src/password_checker.py` (password strength checker).
Passwords are modelled as `List Char`: Python strings are immutable sequences
of Unicode code points.  Python's character classification methods
(`str.islower`, `str.isupper`, `str.isdigit`, `str.lower`) are Unicode-aware;
they are modelled here exactly on the Latin-1 range (code points ≤ 0xFF),
following the Unicode character data that CPython uses, and conservatively
(no class / identity) above that range.  No theorem below depends on the
classification of a character outside Latin-1.
-/

namespace PasswordChecker

/-- Python `c.islower()` for a single character `c`, modelled exactly on
Latin-1: the ASCII range a–z plus the Latin-1 lowercase letters
ª (0xAA), µ (0xB5), º (0xBA), ß–ö (0xDF–0xF6) and ø–ÿ (0xF8–0xFF). -/
def pyIsLower (c : Char) : Bool :=
  decide ((97 ≤ c.toNat ∧ c.toNat ≤ 122) ∨ c.toNat = 170 ∨ c.toNat = 181 ∨
    c.toNat = 186 ∨ (223 ≤ c.toNat ∧ c.toNat ≤ 246) ∨
    (248 ≤ c.toNat ∧ c.toNat ≤ 255))

/-- Python `c.isupper()` modelled exactly on Latin-1: A–Z plus À–Ö
(0xC0–0xD6) and Ø–Þ (0xD8–0xDE). -/
def pyIsUpper (c : Char) : Bool :=
  decide ((65 ≤ c.toNat ∧ c.toNat ≤ 90) ∨ (192 ≤ c.toNat ∧ c.toNat ≤ 214) ∨
    (216 ≤ c.toNat ∧ c.toNat ≤ 222))

/-- Python `c.isdigit()` modelled exactly on Latin-1: 0–9 plus the
superscript digits ² (0xB2), ³ (0xB3) and ¹ (0xB9). -/
def pyIsDigit (c : Char) : Bool :=
  decide ((48 ≤ c.toNat ∧ c.toNat ≤ 57) ∨ c.toNat = 178 ∨ c.toNat = 179 ∨
    c.toNat = 185)

/-- The module constant `SYMBOLS`.  In the source it is the Python *raw*
string literal whose printed form is
!@#$%^&*()_+\-=\[\]{};':\",.<>/?\\|`~  — because the literal is raw, every
backslash written in it is a literal character of the string, so the string
has 37 characters in total, the backslash occurring 6 times (only 32 are
distinct).  Written here character by character, in order; a few characters
are spelled via `Char.ofNat` of their code point. -/
def SYMBOLS : List Char :=
  ['!', '@', '#', '$', '%', '^', '&', '*', '(', ')', '_', '+', '\\', '-', '=',
   '\\', '[', '\\', ']', Char.ofNat 123, Char.ofNat 125, ';', Char.ofNat 39,
   ':', '\\', Char.ofNat 34, ',', '.', '<', '>', '/', '?', '\\', '\\', '|',
   Char.ofNat 96, '~']

/-- Python membership `c in SYMBOLS` (a length-1 substring test is just
character membership). -/
def isSymbolChar (c : Char) : Bool := SYMBOLS.contains c

/-- The module constant `COMMON_PATTERNS`. -/
def COMMON_PATTERNS : List String :=
  ["password", "qwerty", "abc", "abcd", "abc123", "letmein", "admin",
   "welcome", "iloveyou", "dragon", "monkey", "football", "baseball",
   "123", "1234", "12345", "123456", "0000", "1111", "2222"]

/-- Python substring containment `needle in hay`: some contiguous slice of
`hay` equals `needle`.  (The empty needle is contained in every string.) -/
def listContains (hay needle : List Char) : Bool :=
  (List.range (hay.length + 1)).any fun i =>
    (hay.drop i).take needle.length == needle

/-- `score_length`: 16+ characters → 30, 12+ → 20, 8+ → 10, otherwise
`max(0, len - 4)` (natural subtraction implements the `max(0, ·)`). -/
def score_length (pw : List Char) : ℕ :=
  if pw.length ≥ 16 then 30
  else if pw.length ≥ 12 then 20
  else if pw.length ≥ 8 then 10
  else pw.length - 4

/-- Number of character classes present, `kinds` in `score_variety`:
`sum([has_lower, has_upper, has_digit, has_symbol])`. -/
def kinds (pw : List Char) : ℕ :=
  (if pw.any pyIsLower then 1 else 0) + (if pw.any pyIsUpper then 1 else 0) +
  (if pw.any pyIsDigit then 1 else 0) + (if pw.any isSymbolChar then 1 else 0)

/-- `score_variety`: the table `[0, 10, 18, 24, 30]` indexed by the number of
character classes present (the index is always ≤ 4, so the default of `getD`
is never used). -/
def score_variety (pw : List Char) : ℕ := [0, 10, 18, 24, 30].getD (kinds pw) 0

/-- The run-length scan of `penalty_repeats`: `prev` is the previous
character and `streak` the length of the current run of identical
characters; a run of length ≥ 3 contributes `2 * (streak - 2)` when it ends,
including the trailing run at end of string. -/
def runPenAux : Char → ℕ → List Char → ℕ
  | _, streak, [] => if streak ≥ 3 then 2 * (streak - 2) else 0
  | prev, streak, c :: rest =>
    if c = prev then runPenAux c (streak + 1) rest
    else (if streak ≥ 3 then 2 * (streak - 2) else 0) + runPenAux c 1 rest

/-- Run penalty of `penalty_repeats`.  On the empty string the loop body
never runs and the trailing check sees `streak = 1`, so the result is 0. -/
def runPenalty : List Char → ℕ
  | [] => 0
  | c :: rest => runPenAux c 1 rest

/-- `Counter(pw).most_common(1)[0][1]`: the count of the most frequent
character (0 on the empty list, but the caller only uses it when `pw` is
nonempty). -/
def maxCount (pw : List Char) : ℕ := (pw.map fun c => pw.count c).foldr max 0

/-- Frequency-skew part of `penalty_repeats`: guarded by `if pw:` so the
empty string contributes 0 and the division `most / len(pw)` is never a
division by zero; the float comparison `most / len(pw) > 0.4` is read at
exact rational precision as `5 * most > 2 * len`. -/
def freqSkew (pw : List Char) : ℕ :=
  if pw ≠ [] ∧ 5 * maxCount pw > 2 * pw.length then 5 else 0

/-- `penalty_repeats`: run penalty plus frequency skew, capped at 20. -/
def penalty_repeats (pw : List Char) : ℕ := min (runPenalty pw + freqSkew pw) 20

/-- Python `c.lower()` per character, modelled exactly on Latin-1: A–Z,
À–Ö and Ø–Þ shift by +32 (0xD7 × is not a letter and is fixed), everything
else in Latin-1 is fixed; code points above Latin-1 are left unchanged. -/
def pyLower (c : Char) : Char :=
  if (65 ≤ c.toNat ∧ c.toNat ≤ 90) ∨
     (192 ≤ c.toNat ∧ c.toNat ≤ 222 ∧ c.toNat ≠ 215) then
    Char.ofNat (c.toNat + 32)
  else c

/-- Python `pw.lower()` (character-wise; the Latin-1 lowercase mappings are
all one-to-one characters). -/
def lowerStr (pw : List Char) : List Char := pw.map pyLower

/-- `lowers` in `penalty_sequences`. -/
def lowersSeq : List Char := "abcdefghijklmnopqrstuvwxyz".data

/-- `uppers = lowers.upper()` in `penalty_sequences`. -/
def uppersSeq : List Char := "ABCDEFGHIJKLMNOPQRSTUVWXYZ".data

/-- `digits` in `penalty_sequences`. -/
def digitsSeq : List Char := "0123456789".data

/-- The list `seqs` of the six sequence variants (forward and reversed). -/
def seqList : List (List Char) :=
  [lowersSeq, uppersSeq, digitsSeq,
   lowersSeq.reverse, uppersSeq.reverse, digitsSeq.reverse]

/-- `penalty_sequences`: three nested loops adding 3 whenever the window
`s[i:i+k]` (k = 4..7) is a substring of the lower-cased password; capped at
12.  `s.length + 1 - k` is Python's `len(s) - k + 1` clamped at 0. -/
def penalty_sequences (pw : List Char) : ℕ :=
  let pwLow := lowerStr pw
  min (seqList.foldl (fun pen s =>
    [4, 5, 6, 7].foldl (fun pen k =>
      (List.range (s.length + 1 - k)).foldl (fun pen i =>
        if listContains pwLow ((s.drop i).take k) then pen + 3 else pen)
        pen) pen) 0) 12

/-- The regex class `\d`, modelled on Latin-1 as the ASCII digits 0–9 (the
decimal-digit code points of Latin-1). -/
def reDigit (c : Char) : Bool := decide (48 ≤ c.toNat ∧ c.toNat ≤ 57)

/-- One match attempt of `(19|20)\d{2}` anchored at the head of the list. -/
def yearAt : List Char → Bool
  | a :: b :: c :: d :: _ =>
    ((a == '1' && b == '9') || (a == '2' && b == '0')) && reDigit c && reDigit d
  | _ => false

/-- Existence of a match for `re.search(r"(19|20)\d{2}", s)`: a match
anchored at some position of `s`. -/
def yearMatch (s : List Char) : Bool :=
  (List.range s.length).any fun i => yearAt (s.drop i)

/-- A regex word character (for the `\b` boundaries of the date pattern),
modelled on Latin-1: letters, digits and the underscore, plus the numeric
vulgar fractions ¼ ½ ¾ (0xBC–0xBE), which CPython's `\w` also accepts. -/
def reWord (c : Char) : Bool :=
  pyIsLower c || pyIsUpper c || pyIsDigit c ||
    decide (c.toNat = 95 ∨ c.toNat = 188 ∨ c.toNat = 189 ∨ c.toNat = 190)

/-- Possible remainders after the first group `(0?[1-9]|1[0-2])` of the
date regex consumes a prefix of the list (both alternatives, and both ways
of using the optional `0?`, are collected: `re.search` succeeds iff some
choice lets the rest of the pattern match). -/
def grp1Rems : List Char → List (List Char)
  | [] => []
  | c :: rest =>
    (if decide (49 ≤ c.toNat ∧ c.toNat ≤ 57) then [rest] else []) ++
    (match rest with
     | d :: rest2 =>
       if (c == '0' && decide (49 ≤ d.toNat ∧ d.toNat ≤ 57)) ||
          (c == '1' && decide (48 ≤ d.toNat ∧ d.toNat ≤ 50)) then [rest2]
       else []
     | [] => [])

/-- Possible remainders after the optional separator (the character class
of hyphen, slash and dot, made optional by the trailing question mark). -/
def sepRems (l : List Char) : List (List Char) :=
  [l] ++
  (match l with
   | c :: rest => if c == '-' || c == '/' || c == '.' then [rest] else []
   | [] => [])

/-- Possible remainders after the second group `(0?[1-9]|[12]\d|3[01])`. -/
def grp2Rems : List Char → List (List Char)
  | [] => []
  | c :: rest =>
    (if decide (49 ≤ c.toNat ∧ c.toNat ≤ 57) then [rest] else []) ++
    (match rest with
     | d :: rest2 =>
       if (c == '0' && decide (49 ≤ d.toNat ∧ d.toNat ≤ 57)) ||
          ((c == '1' || c == '2') && reDigit d) ||
          (c == '3' && (d == '0' || d == '1')) then [rest2]
       else []
     | [] => [])

/-- The trailing `\b` of the date regex: the last consumed character is a
digit (a word character), so the boundary holds iff the match ends at the
end of the string or the next character is not a word character. -/
def endBoundary : List Char → Bool
  | [] => true
  | c :: _ => !reWord c

/-- A match of the date regex body anchored at the head of the list (the
leading `\b` is checked by the caller). -/
def dateAt (l : List Char) : Bool :=
  (grp1Rems l).any fun r1 => (sepRems r1).any fun r2 =>
    (grp2Rems r2).any endBoundary

/-- Scan for the date regex: `bnd` records whether a word boundary precedes
the current position (the first consumed character of any match is a digit,
hence a word character, so the leading `\b` holds iff the previous
character, if any, is not a word character). -/
def dateMatchAux : Bool → List Char → Bool
  | _, [] => false
  | bnd, c :: rest => (bnd && dateAt (c :: rest)) || dateMatchAux (!reWord c) rest

/-- Existence of a match of the full date pattern of the source — leading
word boundary, day-or-month group, optional separator, second numeric
group, trailing word boundary — somewhere in `s`, as `re.search` tests. -/
def dateMatch (s : List Char) : Bool := dateMatchAux true s

/-- The `keyboard_rows` list of `penalty_common_patterns`. -/
def keyboard_rows : List String :=
  ["qwerty", "asdf", "zxcv", "1q2w3e", "qaz", "wasd"]

/-- `penalty_common_patterns`: +6 per listed common pattern contained in the
lower-cased password, +6 per keyboard row contained forward or reversed,
+5 if the year regex matches, +5 if the date regex matches; capped at 20. -/
def penalty_common_patterns (pw : List Char) : ℕ :=
  let pwLow := lowerStr pw
  let pen1 := COMMON_PATTERNS.foldl
    (fun pen pat => if listContains pwLow pat.data then pen + 6 else pen) 0
  let pen2 := keyboard_rows.foldl
    (fun pen row =>
      if listContains pwLow row.data || listContains pwLow row.data.reverse then
        pen + 6
      else pen) pen1
  let pen3 := pen2 + (if yearMatch pwLow then 5 else 0)
  let pen4 := pen3 + (if dateMatch pwLow then 5 else 0)
  min pen4 20

/-- `bonus_strong_mix`: 10 when the password has at least 14 characters and
variety score at least 24, else 0. -/
def bonus_strong_mix (pw : List Char) : ℕ :=
  if pw.length ≥ 14 ∧ score_variety pw ≥ 24 then 10 else 0

/-- The `charset` accumulation of `estimate_entropy_bits`: 26 for lowercase
present, 26 for uppercase, 10 for digits, `len(SYMBOLS)` for symbols. -/
def charsetSize (pw : List Char) : ℕ :=
  (if pw.any pyIsLower then 26 else 0) + (if pw.any pyIsUpper then 26 else 0) +
  (if pw.any pyIsDigit then 10 else 0) +
  (if pw.any isSymbolChar then SYMBOLS.length else 0)

/-- Rounding to one decimal place, Python `round(x, 1)`, read at exact real
precision.  (In this program the argument is never exactly midway between
two multiples of 1/10 — the logarithms involved are irrational unless the
charset size is a power of two, which never happens — so the tie-breaking
rule is immaterial.) -/
noncomputable def round1 (x : ℝ) : ℝ := ((round (10 * x) : ℤ) : ℝ) / 10

/-- `estimate_entropy_bits`: 0.0 when no recognized class is present,
otherwise `round(len(pw) * log2(charset), 1)`. -/
noncomputable def estimate_entropy_bits (pw : List Char) : ℝ :=
  if charsetSize pw = 0 then 0
  else round1 ((pw.length : ℝ) * Real.logb 2 (charsetSize pw))

/-- `strength_label`: five tiers, highest first.  The returned strings carry
the emoji markers that the source appends to the tier names. -/
def strength_label (score : ℤ) : String :=
  if score ≥ 85 then "Very Strong ✅"
  else if score ≥ 70 then "Strong ✅"
  else if score ≥ 55 then "Medium ⚠️"
  else if score ≥ 35 then "Weak ❌"
  else "Very Weak ❌"

/-- `tips`: advisory strings appended in a fixed order, with a single
positive suggestion when nothing triggered. -/
def tips (pw : List Char) : List String :=
  let t :=
    (if pw.length < 12 then ["Use at least 12 characters."] else []) ++
    (if !(pw.any pyIsLower) then ["Add lowercase letters."] else []) ++
    (if !(pw.any pyIsUpper) then ["Add uppercase letters."] else []) ++
    (if !(pw.any pyIsDigit) then ["Add digits."] else []) ++
    (if !(pw.any isSymbolChar) then ["Add symbols."] else []) ++
    (if penalty_repeats pw > 0 then
      ["Avoid long repeats like \x27aaa\x27 or \x27!!!!\x27."] else []) ++
    (if penalty_sequences pw > 0 then
      ["Avoid sequences like \x27abcd\x27 or \x271234\x27."] else []) ++
    (if penalty_common_patterns pw > 0 then
      ["Avoid common words, keyboard rows, or dates."] else [])
  if t.isEmpty then
    ["Nice! Consider a passphrase: 3–4 random words with a symbol."]
  else t

/-- The `breakdown` sub-dictionary of the result. -/
structure Breakdown where
  length : ℕ
  variety : ℕ
  bonus : ℕ
  penalty_repeats : ℕ
  penalty_sequences : ℕ
  penalty_patterns : ℕ

/-- The result dictionary of `score_password`. -/
structure Result where
  score : ℤ
  label : String
  entropy_bits : ℝ
  breakdown : Breakdown
  tips : List String

/-- `score_password`: the aggregator.  `raw` may be negative, so it lives in
ℤ; the score is `max(0, min(100, raw))`. -/
noncomputable def score_password (pw : List Char) : Result :=
  let s_len := score_length pw
  let s_var := score_variety pw
  let p_rep := penalty_repeats pw
  let p_seq := penalty_sequences pw
  let p_pat := penalty_common_patterns pw
  let bonus := bonus_strong_mix pw
  let raw : ℤ := (s_len : ℤ) + (s_var : ℤ) + (bonus : ℤ) -
    ((p_rep : ℤ) + (p_seq : ℤ) + (p_pat : ℤ))
  let score : ℤ := max 0 (min 100 raw)
  { score := score
    label := strength_label score
    entropy_bits := estimate_entropy_bits pw
    breakdown :=
      { length := s_len, variety := s_var, bonus := bonus,
        penalty_repeats := p_rep, penalty_sequences := p_seq,
        penalty_patterns := p_pat }
    tips := tips pw }

/-- The window `s[i:i+k]` slices of one sequence variant, for the window
lengths 4..7 that `penalty_sequences` scans; for each `k` there are
`s.length + 1 - k` windows, as in the Python `range`. -/
def seqWindows (s : List Char) : List (List Char) :=
  ((List.range (s.length + 1 - 4)).map fun i => (s.drop i).take 4) ++
  ((List.range (s.length + 1 - 5)).map fun i => (s.drop i).take 5) ++
  ((List.range (s.length + 1 - 6)).map fun i => (s.drop i).take 6) ++
  ((List.range (s.length + 1 - 7)).map fun i => (s.drop i).take 7)

/-- All windows scanned by `penalty_sequences`, across the six variants. -/
def allSeqWindows : List (List Char) :=
  seqWindows lowersSeq ++ seqWindows uppersSeq ++ seqWindows digitsSeq ++
  seqWindows lowersSeq.reverse ++ seqWindows uppersSeq.reverse ++
  seqWindows digitsSeq.reverse

/-- Number of scanned windows that occur as substrings of the lower-cased
password; overlapping windows are counted independently. -/
def seqMatchCount (pw : List Char) : ℕ :=
  allSeqWindows.countP fun w => listContains (lowerStr pw) w

/-- Variant of `penalty_sequences` scanning only the lowercase alphabet, the
digit string and their two reversals, omitting the two uppercase variants
(which can never match inside a lower-cased password). -/
def penalty_sequences_noupper (pw : List Char) : ℕ :=
  let pwLow := lowerStr pw
  min ([lowersSeq, digitsSeq, lowersSeq.reverse, digitsSeq.reverse].foldl
    (fun pen s =>
      [4, 5, 6, 7].foldl (fun pen k =>
        (List.range (s.length + 1 - k)).foldl (fun pen i =>
          if listContains pwLow ((s.drop i).take k) then pen + 3 else pen)
          pen) pen) 0) 12

/-- Does a character list start with an uppercase ASCII letter?  (Every
window of the uppercase sequence variants does.) -/
def headUpperAscii : List Char → Bool
  | [] => false
  | c :: _ => decide (65 ≤ c.toNat ∧ c.toNat ≤ 90)

/-- The four character classes of the scorer, to quantify over classes. -/
inductive CharClass
  | lower
  | upper
  | digit
  | symbol

/-- Membership of a character in a class, by the predicates the source uses. -/
def classHas : CharClass → Char → Bool
  | .lower => pyIsLower
  | .upper => pyIsUpper
  | .digit => pyIsDigit
  | .symbol => isSymbolChar

/-- Presence of a character class somewhere in a password. -/
def hasClass (cls : CharClass) (pw : List Char) : Bool := pw.any (classHas cls)

/-! Helper lemmas. -/

/-- A fold that adds a fixed weight `w` for every element satisfying `q`
computes `w` times the count of such elements. -/
theorem foldl_addIf {α : Type} (q : α → Bool) (w : ℕ) (l : List α) :
    ∀ a : ℕ,
      l.foldl (fun pen x => if q x then pen + w else pen) a = a + w * l.countP q := by
  induction l with
  | nil => intro a; simp
  | cons x xs ih =>
    intro a
    rw [List.foldl_cons, ih, List.countP_cons]
    by_cases h : q x <;> simp [h] <;> ring

/-- Characterisation of `listContains` by a slicing index. -/
theorem listContains_iff {hay w : List Char} :
    listContains hay w = true ↔ ∃ i, (hay.drop i).take w.length = w := by
  unfold listContains
  rw [List.any_eq_true]
  constructor
  · rintro ⟨i, -, h⟩
    exact ⟨i, beq_iff_eq.mp h⟩
  · rintro ⟨i, h⟩
    rcases le_or_lt i hay.length with hle | hlt
    · exact ⟨i, List.mem_range.mpr (by omega), beq_iff_eq.mpr h⟩
    · refine ⟨hay.length, List.mem_range.mpr (by omega), beq_iff_eq.mpr ?_⟩
      rw [List.drop_eq_nil_of_le le_rfl]
      rwa [List.drop_eq_nil_of_le (by omega)] at h

theorem head_mem_of_listContains {hay : List Char} {c : Char} {tl : List Char}
    (h : listContains hay (c :: tl) = true) : c ∈ hay := by
  obtain ⟨i, h⟩ := listContains_iff.mp h
  have hc : c ∈ (hay.drop i).take (c :: tl).length := by
    rw [h]; exact List.mem_cons_self _ _
  exact List.mem_of_mem_drop (List.mem_of_mem_take hc)

/-- Substring containment is inherited by prefixes of the needle. -/
theorem listContains_take {hay w : List Char} (m : ℕ)
    (h : listContains hay w = true) : listContains hay (w.take m) = true := by
  obtain ⟨i, h⟩ := listContains_iff.mp h
  refine listContains_iff.mpr ⟨i, ?_⟩
  calc (hay.drop i).take (w.take m).length
      = (hay.drop i).take (m ⊓ w.length) := by rw [List.length_take]
    _ = ((hay.drop i).take w.length).take (m ⊓ w.length) := by
        rw [List.take_take]
        congr 1
        omega
    _ = w.take (m ⊓ w.length) := by rw [h]
    _ = w.take m := by
        rw [List.take_eq_take]
        omega

theorem char_toNat_ofNat {n : ℕ} (h : n < 55296) : (Char.ofNat n).toNat = n := by
  unfold Char.ofNat
  rw [dif_pos (Or.inl h)]
  rfl

/-- Lower-casing never produces an uppercase ASCII letter. -/
theorem pyLower_not_upperAscii (c : Char) :
    ¬(65 ≤ (pyLower c).toNat ∧ (pyLower c).toNat ≤ 90) := by
  unfold pyLower
  split
  case isTrue h =>
    rw [char_toNat_ofNat (by omega)]
    omega
  case isFalse h => omega

/-- The image of `pyLower` never satisfies the shift condition again. -/
theorem pyLower_cond_false (c : Char) :
    ¬((65 ≤ (pyLower c).toNat ∧ (pyLower c).toNat ≤ 90) ∨
      (192 ≤ (pyLower c).toNat ∧ (pyLower c).toNat ≤ 222 ∧
        (pyLower c).toNat ≠ 215)) := by
  unfold pyLower
  split
  case isTrue h =>
    rw [char_toNat_ofNat (by omega)]
    omega
  case isFalse h => omega

theorem pyLower_idem (c : Char) : pyLower (pyLower c) = pyLower c := by
  conv_lhs => rw [pyLower]
  rw [if_neg (pyLower_cond_false c)]

theorem lowerStr_idem (pw : List Char) : lowerStr (lowerStr pw) = lowerStr pw := by
  unfold lowerStr
  rw [List.map_map]
  congr 1
  funext c
  exact pyLower_idem c

/-- No character of a lower-cased password is an uppercase ASCII letter, so a
nonempty needle starting with one is never contained in it. -/
theorem listContains_lowerStr_upperAscii {pw : List Char} {c : Char}
    {tl : List Char} (hc : 65 ≤ c.toNat) (hc' : c.toNat ≤ 90) :
    listContains (lowerStr pw) (c :: tl) = false := by
  by_contra h
  have h' : listContains (lowerStr pw) (c :: tl) = true := by
    revert h
    cases listContains (lowerStr pw) (c :: tl) <;> simp
  have hmem := head_mem_of_listContains h'
  obtain ⟨a, -, ha⟩ := List.mem_map.mp hmem
  exact pyLower_not_upperAscii a (ha ▸ ⟨hc, hc'⟩)

/-- The nested loops of `penalty_sequences` compute three points per
matching window, over all variants, window lengths and positions. -/
theorem penalty_sequences_eq (pw : List Char) :
    penalty_sequences pw = min (3 * seqMatchCount pw) 12 := by
  unfold penalty_sequences seqMatchCount allSeqWindows seqWindows seqList
  simp only [List.foldl_cons, List.foldl_nil, foldl_addIf, List.countP_append,
    List.countP_map, Function.comp_def]
  congr 1
  omega

theorem penalty_sequences_noupper_eq (pw : List Char) :
    penalty_sequences_noupper pw =
      min (3 * ((seqWindows lowersSeq ++ seqWindows digitsSeq ++
        seqWindows lowersSeq.reverse ++ seqWindows digitsSeq.reverse).countP
          fun w => listContains (lowerStr pw) w)) 12 := by
  unfold penalty_sequences_noupper seqWindows
  simp only [List.foldl_cons, List.foldl_nil, foldl_addIf, List.countP_append,
    List.countP_map, Function.comp_def]
  congr 1
  omega

/-- No window of an uppercase sequence variant ever matches inside a
lower-cased password. -/
theorem countP_upperWindows_zero (pw : List Char) :
    (seqWindows uppersSeq).countP (fun w => listContains (lowerStr pw) w) = 0 ∧
    (seqWindows uppersSeq.reverse).countP
      (fun w => listContains (lowerStr pw) w) = 0 := by
  have hall : (seqWindows uppersSeq ++ seqWindows uppersSeq.reverse).all
      headUpperAscii = true := by decide
  rw [List.all_eq_true] at hall
  constructor <;>
    · rw [List.countP_eq_zero]
      intro w hw
      have hup : headUpperAscii w = true := by
        first
        | exact hall w (List.mem_append_left _ hw)
        | exact hall w (List.mem_append_right _ hw)
      match w, hup with
      | c :: tl, hup =>
        have hb := of_decide_eq_true (by simpa [headUpperAscii] using hup)
        simp [listContains_lowerStr_upperAscii hb.1 hb.2]

theorem score_length_le (pw : List Char) : score_length pw ≤ 30 := by
  unfold score_length
  split_ifs <;> omega

theorem kinds_le_four (pw : List Char) : kinds pw ≤ 4 := by
  unfold kinds
  split_ifs <;> omega

theorem score_variety_le (pw : List Char) : score_variety pw ≤ 30 := by
  have h := kinds_le_four pw
  unfold score_variety
  generalize kinds pw = k at h ⊢
  interval_cases k <;> decide

theorem bonus_cases (pw : List Char) :
    bonus_strong_mix pw = 0 ∨ bonus_strong_mix pw = 10 := by
  unfold bonus_strong_mix
  split_ifs <;> simp

theorem penalty_repeats_le (pw : List Char) : penalty_repeats pw ≤ 20 :=
  Nat.min_le_right _ _

theorem penalty_sequences_le (pw : List Char) : penalty_sequences pw ≤ 12 := by
  rw [penalty_sequences_eq]
  exact Nat.min_le_right _ _

theorem penalty_common_patterns_le (pw : List Char) :
    penalty_common_patterns pw ≤ 20 :=
  Nat.min_le_right _ _

/-- The charset size is either zero or at least 10 (the smallest class). -/
theorem charsetSize_zero_or_ge (pw : List Char) :
    charsetSize pw = 0 ∨ 10 ≤ charsetSize pw := by
  have h : SYMBOLS.length = 37 := by decide
  unfold charsetSize
  rw [h]
  split_ifs <;> omega

theorem estimate_entropy_bits_nonneg (pw : List Char) :
    0 ≤ estimate_entropy_bits pw := by
  unfold estimate_entropy_bits
  rcases charsetSize_zero_or_ge pw with h | h
  · rw [if_pos h]
  · rw [if_neg (by omega)]
    unfold round1
    have h1 : (1 : ℝ) ≤ (charsetSize pw : ℝ) := by
      exact_mod_cast (by omega : 1 ≤ charsetSize pw)
    have hlogb : (0 : ℝ) ≤ Real.logb 2 (charsetSize pw) :=
      Real.logb_nonneg (by norm_num) h1
    have hx : (0 : ℝ) ≤ (pw.length : ℝ) * Real.logb 2 (charsetSize pw) :=
      mul_nonneg (by positivity) hlogb
    have hr : (0 : ℤ) ≤
        round ((10 : ℝ) * ((pw.length : ℝ) * Real.logb 2 (charsetSize pw))) := by
      rw [round_eq, Int.le_floor]
      push_cast
      linarith
    exact div_nonneg (by exact_mod_cast hr) (by norm_num)


theorem strength_label_mem (z : ℤ) :
    strength_label z ∈
      ["Very Strong ✅", "Strong ✅", "Medium ⚠️", "Weak ❌", "Very Weak ❌"] := by
  unfold strength_label
  split_ifs <;> simp

theorem if_isEmpty_ne_nil {α : Type} (t : List α) (x : α) :
    (if t.isEmpty = true then [x] else t) ≠ [] := by
  split
  · simp
  · next h =>
    simpa using h

theorem tips_ne_nil (pw : List Char) : tips pw ≠ [] := by
  unfold tips
  exact if_isEmpty_ne_nil _ _

theorem kinds_append_mono (pw : List Char) (c : Char) :
    kinds pw ≤ kinds (pw ++ [c]) := by
  unfold kinds
  simp only [List.any_append, List.any_cons, List.any_nil, Bool.or_false]
  have step : ∀ a b : Bool,
      (if a = true then 1 else 0) ≤ (if (a || b) = true then 1 else 0) := by
    intro a b
    cases a <;> cases b <;> simp
  exact Nat.add_le_add (Nat.add_le_add (Nat.add_le_add (step _ _) (step _ _))
    (step _ _)) (step _ _)

theorem varietyTable_mono {i j : ℕ} (hij : i ≤ j) (hj : j ≤ 4) :
    [0, 10, 18, 24, 30].getD i 0 ≤ [0, 10, 18, 24, 30].getD j 0 := by
  interval_cases j <;> interval_cases i <;> decide

/-! Claim theorems. -/

/-- C1: for every input string, the final score equals the clamp to [0, 100]
of length + variety + bonus − (penalty_repeats + penalty_sequences +
penalty_patterns), and every breakdown field lies in its documented
sub-range: length 0–30, variety 0–30, bonus 0 or 10, penalty_repeats 0–20,
penalty_sequences 0–12, penalty_patterns 0–20 (the lower bounds are
automatic, the fields being natural numbers), for all inputs including the
empty string, very long strings and adversarial repeated characters. -/
theorem score_password_invariant_bounds (pw : List Char) :
    (score_password pw).score =
      max 0 (min 100 ((score_length pw : ℤ) + (score_variety pw : ℤ) +
        (bonus_strong_mix pw : ℤ) - ((penalty_repeats pw : ℤ) +
        (penalty_sequences pw : ℤ) + (penalty_common_patterns pw : ℤ)))) ∧
    (score_password pw).breakdown.length ≤ 30 ∧
    (score_password pw).breakdown.variety ≤ 30 ∧
    ((score_password pw).breakdown.bonus = 0 ∨
      (score_password pw).breakdown.bonus = 10) ∧
    (score_password pw).breakdown.penalty_repeats ≤ 20 ∧
    (score_password pw).breakdown.penalty_sequences ≤ 12 ∧
    (score_password pw).breakdown.penalty_patterns ≤ 20 :=
  ⟨rfl, score_length_le pw, score_variety_le pw, bonus_cases pw,
    penalty_repeats_le pw, penalty_sequences_le pw,
    penalty_common_patterns_le pw⟩

/-- C6: the sequence penalizer adds 3 for every window of length 4..7 of the
six alphabet/digit variants (forward or reversed, tested against the
case-folded input) that occurs as a substring of the case-folded input,
counting overlapping windows independently, and caps the total at 12; in
particular on "abcdefgh" the overlapping matches drive it to the cap 12. -/
theorem penalty_sequences_windows_cap (pw : List Char) :
    penalty_sequences pw = min (3 * seqMatchCount pw) 12 ∧
    penalty_sequences "abcdefgh".data = 12 :=
  ⟨penalty_sequences_eq pw, by decide⟩

/-- C7: `score_password` is total as embedded and always yields a
well-formed result: score within [0, 100], one of the five labels, a
non-negative entropy estimate and a nonempty tip list; the frequency-skew
check is guarded on nonempty input and the run-length and sequence scans
are structural, so no division by zero or index error can occur. -/
theorem score_password_total_wellformed (pw : List Char) :
    0 ≤ (score_password pw).score ∧ (score_password pw).score ≤ 100 ∧
    (score_password pw).label ∈
      ["Very Strong ✅", "Strong ✅", "Medium ⚠️", "Weak ❌", "Very Weak ❌"] ∧
    0 ≤ (score_password pw).entropy_bits ∧
    (score_password pw).tips ≠ [] :=
  ⟨le_max_left 0 _, max_le (by norm_num) (min_le_left _ _),
    strength_label_mem _, estimate_entropy_bits_nonneg pw, tips_ne_nil pw⟩

/-- C8: appending a character of a class missing from the password never
decreases the variety sub-score. -/
theorem score_variety_append_mono (pw : List Char) (c : Char) (cls : CharClass)
    (h1 : hasClass cls pw = false) (h2 : classHas cls c = true) :
    score_variety pw ≤ score_variety (pw ++ [c]) := by
  unfold score_variety
  exact varietyTable_mono (kinds_append_mono pw c) (kinds_le_four _)

theorem score_variety_append_mono_witness :
    hasClass CharClass.digit "abc".data = false ∧
    classHas CharClass.digit '1' = true ∧
    score_variety "abc".data ≤ score_variety ("abc".data ++ ['1']) :=
  ⟨by decide, by decide,
    score_variety_append_mono "abc".data '1' CharClass.digit
      (by decide) (by decide)⟩

/-- C9: the sequence penalty is invariant under case-folding the input, and
the two uppercase sequence variants contribute nothing: the function equals
the variant scanning only the lowercase alphabet, the digit string and
their two reversals. -/
theorem penalty_sequences_casefold_noupper (pw : List Char) :
    penalty_sequences pw = penalty_sequences (lowerStr pw) ∧
    penalty_sequences pw = penalty_sequences_noupper pw := by
  constructor
  · rw [penalty_sequences_eq, penalty_sequences_eq]
    unfold seqMatchCount
    rw [lowerStr_idem]
  · rw [penalty_sequences_eq, penalty_sequences_noupper_eq]
    unfold seqMatchCount allSeqWindows
    obtain ⟨h1, h2⟩ := countP_upperWindows_zero pw
    simp only [List.countP_append]
    rw [h1, h2]
    ring_nf

/-- C4 counterexample: on the empty string the label is not the bare string
"Very Weak" — the source appends an emoji marker to every label. -/
theorem empty_label_cx : (score_password []).label ≠ "Very Weak" := by
  have h : (score_password []).label = "Very Weak ❌" := rfl
  rw [h]
  decide

/-- C4 amended: on the empty string, every breakdown field is 0, the entropy
estimate is 0, the score is 0 and the label is "Very Weak ❌" (the "Very
Weak" tier with the emoji marker the source appends). -/
theorem score_password_empty_amended :
    (score_password []).breakdown.length = 0 ∧
    (score_password []).breakdown.variety = 0 ∧
    (score_password []).breakdown.bonus = 0 ∧
    (score_password []).breakdown.penalty_repeats = 0 ∧
    (score_password []).breakdown.penalty_sequences = 0 ∧
    (score_password []).breakdown.penalty_patterns = 0 ∧
    (score_password []).entropy_bits = 0 ∧
    (score_password []).score = 0 ∧
    (score_password []).label = "Very Weak ❌" := by
  refine ⟨by decide, by decide, by decide, by decide, by decide, by decide,
    ?_, by decide, rfl⟩
  show estimate_entropy_bits [] = 0
  unfold estimate_entropy_bits
  rw [if_pos (show charsetSize [] = 0 by decide)]

/-- C5 counterexample: on "aaaaaaaa" the label is not the bare string
"Very Weak" — the source appends an emoji marker to every label. -/
theorem repeated_a_label_cx :
    (score_password "aaaaaaaa".data).label ≠ "Very Weak" := by
  have h : (score_password "aaaaaaaa".data).label = "Very Weak ❌" := rfl
  rw [h]
  decide

/-- C5 amended: on "aaaaaaaa", the run penalty is 2·(8−2) = 12 (including
the trailing streak), the frequency skew adds 5, so the repeat penalty is
min(17, 20) = 17; length score 10, variety score 10, no sequence or pattern
penalty, no bonus; the final score is 3 and the label is "Very Weak ❌". -/
theorem repeated_a_breakdown_amended :
    runPenalty "aaaaaaaa".data = 12 ∧
    freqSkew "aaaaaaaa".data = 5 ∧
    penalty_repeats "aaaaaaaa".data = min (2 * (8 - 2) + 5) 20 ∧
    penalty_repeats "aaaaaaaa".data = 17 ∧
    score_length "aaaaaaaa".data = 10 ∧
    score_variety "aaaaaaaa".data = 10 ∧
    penalty_sequences "aaaaaaaa".data = 0 ∧
    penalty_common_patterns "aaaaaaaa".data = 0 ∧
    bonus_strong_mix "aaaaaaaa".data = 0 ∧
    (score_password "aaaaaaaa".data).score = 3 ∧
    (score_password "aaaaaaaa".data).label = "Very Weak ❌" := by
  refine ⟨by decide, by decide, by decide, by decide, by decide, by decide,
    by decide, by decide, by decide, by decide, rfl⟩

/-- C3 counterexample: the character é (U+00E9) is a non-ASCII letter, yet
Python's `str.islower` classifies it as lowercase, so a string consisting
only of it has variety score 10, not 0. -/
theorem variety_nonascii_cx :
    score_variety ['é'] = 10 ∧ score_variety ['é'] ≠ 0 := by
  constructor <;> decide

/-- C3 amended: on ASCII characters the three alphanumeric class predicates
agree with the fixed ASCII classes (and the symbol predicate is membership
in the fixed symbol set by definition); a character outside all four classes
(e.g. whitespace) counts toward none of them, so a string consisting only of
such characters has variety score 0.  Non-ASCII letters, however, are
classified by the Unicode-aware predicates. -/
theorem charclass_ascii_amended :
    (∀ c : Char, c.toNat ≤ 127 →
      (pyIsLower c = decide (97 ≤ c.toNat ∧ c.toNat ≤ 122) ∧
       pyIsUpper c = decide (65 ≤ c.toNat ∧ c.toNat ≤ 90) ∧
       pyIsDigit c = decide (48 ≤ c.toNat ∧ c.toNat ≤ 57))) ∧
    (∀ pw : List Char,
      (∀ c ∈ pw, pyIsLower c = false ∧ pyIsUpper c = false ∧
        pyIsDigit c = false ∧ isSymbolChar c = false) →
      score_variety pw = 0) := by
  constructor
  · intro c hc
    refine ⟨?_, ?_, ?_⟩
    · unfold pyIsLower
      rw [decide_eq_decide]
      omega
    · unfold pyIsUpper
      rw [decide_eq_decide]
      omega
    · unfold pyIsDigit
      rw [decide_eq_decide]
      omega
  · intro pw hall
    have hl : pw.any pyIsLower = false :=
      List.any_eq_false.mpr fun c hcm => by simp [(hall c hcm).1]
    have hu : pw.any pyIsUpper = false :=
      List.any_eq_false.mpr fun c hcm => by simp [(hall c hcm).2.1]
    have hd : pw.any pyIsDigit = false :=
      List.any_eq_false.mpr fun c hcm => by simp [(hall c hcm).2.2.1]
    have hs : pw.any isSymbolChar = false :=
      List.any_eq_false.mpr fun c hcm => by simp [(hall c hcm).2.2.2]
    unfold score_variety kinds
    rw [hl, hu, hd, hs]
    decide

theorem charclass_ascii_amended_witness :
    ('a'.toNat ≤ 127 ∧
      pyIsLower 'a' = decide (97 ≤ 'a'.toNat ∧ 'a'.toNat ≤ 122)) ∧
    ((∀ c ∈ [' '], pyIsLower c = false ∧ pyIsUpper c = false ∧
        pyIsDigit c = false ∧ isSymbolChar c = false) ∧
      score_variety [' '] = 0) :=
  ⟨⟨by decide, (charclass_ascii_amended.1 'a' (by decide)).1⟩,
   ⟨by decide, charclass_ascii_amended.2 [' '] (by decide)⟩⟩

/-- C10: any password whose case-folded form contains "123456" hits the
pattern-penalty cap 20 exactly: the four list entries "123", "1234",
"12345" and "123456" are then simultaneously present, contributing at
least 24 before the cap. -/
theorem penalty_patterns_123456_cap (pw : List Char)
    (h : listContains (lowerStr pw) "123456".data = true) :
    penalty_common_patterns pw = 20 := by
  have h5 : listContains (lowerStr pw) "12345".data = true := by
    have h' := listContains_take 5 h
    rwa [show "123456".data.take 5 = "12345".data by decide] at h'
  have h4 : listContains (lowerStr pw) "1234".data = true := by
    have h' := listContains_take 4 h
    rwa [show "123456".data.take 4 = "1234".data by decide] at h'
  have h3 : listContains (lowerStr pw) "123".data = true := by
    have h' := listContains_take 3 h
    rwa [show "123456".data.take 3 = "123".data by decide] at h'
  have hsplit : COMMON_PATTERNS =
      (["password", "qwerty", "abc", "abcd", "abc123", "letmein", "admin",
        "welcome", "iloveyou", "dragon", "monkey", "football",
        "baseball"] : List String) ++
      (["123", "1234", "12345", "123456"] : List String) ++
      (["0000", "1111", "2222"] : List String) := by decide
  have hcnt : 4 ≤ List.countP
      (fun pat => listContains (lowerStr pw) pat.data) COMMON_PATTERNS := by
    rw [hsplit, List.countP_append, List.countP_append]
    have hm : List.countP (fun pat => listContains (lowerStr pw) pat.data)
        (["123", "1234", "12345", "123456"] : List String) = 4 := by
      simp [List.countP_cons, h3, h4, h5, h]
    omega
  unfold penalty_common_patterns
  simp only [foldl_addIf]
  rw [Nat.min_eq_right]
  split_ifs <;> omega

theorem penalty_patterns_123456_cap_witness :
    listContains (lowerStr "123456".data) "123456".data = true ∧
    penalty_common_patterns "123456".data = 20 :=
  ⟨by decide, penalty_patterns_123456_cap "123456".data (by decide)⟩

/-- Lower bound 103/20 = 5.15 for log2(37), via 2^103 ≤ 37^20. -/
theorem logb_two_37_lower : (103 : ℝ) / 20 ≤ Real.logb 2 37 := by
  rw [Real.le_logb_iff_rpow_le (by norm_num) (by norm_num)]
  have h20 : ((2 : ℝ) ^ ((103 : ℝ) / 20)) ^ (20 : ℕ) ≤ (37 : ℝ) ^ (20 : ℕ) := by
    rw [← Real.rpow_natCast ((2 : ℝ) ^ ((103 : ℝ) / 20)) 20,
      ← Real.rpow_mul (by norm_num)]
    rw [show (103 : ℝ) / 20 * (20 : ℕ) = ((103 : ℕ) : ℝ) by push_cast; ring]
    rw [Real.rpow_natCast]
    norm_num
  exact le_of_pow_le_pow_left (by norm_num) (by norm_num) h20

/-- C2 counterexample: on the one-character string "!" the charset size the
code computes is `len(SYMBOLS)` = 37, not the documented 32 (the raw-string
backslashes make the symbol string 37 characters long), so the entropy
estimate differs from round(1 × log2(32), 1): the code yields 5.2, the
claimed formula 5.0. -/
theorem entropy_symbol_charset_cx :
    charsetSize ['!'] = 37 ∧
    estimate_entropy_bits ['!'] ≠
      round1 ((List.length ['!'] : ℝ) * Real.logb 2 32) := by
  refine ⟨by decide, ?_⟩
  have h32 : Real.logb 2 32 = 5 := by
    rw [show (32 : ℝ) = 2 ^ (5 : ℕ) by norm_num, Real.logb_pow,
      Real.logb_self_eq_one (by norm_num)]
    norm_num
  have hRHS : round1 ((List.length ['!'] : ℝ) * Real.logb 2 32) = 5 := by
    rw [h32]
    unfold round1
    rw [show (10 : ℝ) * ((List.length ['!'] : ℝ) * 5) = ((50 : ℤ) : ℝ) by
      simp; norm_num]
    rw [round_intCast]
    norm_num
  have hval : estimate_entropy_bits ['!'] =
      round1 ((1 : ℝ) * Real.logb 2 37) := by
    unfold estimate_entropy_bits
    rw [show charsetSize ['!'] = 37 by decide]
    rw [if_neg (by norm_num)]
    norm_num
  have hL : (52 : ℤ) ≤ round ((10 : ℝ) * ((1 : ℝ) * Real.logb 2 37)) := by
    rw [round_eq, Int.le_floor]
    push_cast
    have := logb_two_37_lower
    linarith
  intro heq
  rw [hval, hRHS] at heq
  unfold round1 at heq
  have h50 : ((round ((10 : ℝ) * ((1 : ℝ) * Real.logb 2 37)) : ℤ) : ℝ) = 50 := by
    linarith
  have : round ((10 : ℝ) * ((1 : ℝ) * Real.logb 2 37)) = (50 : ℤ) := by
    exact_mod_cast h50
  omega

/-- C2 amended: the entropy estimate equals round(length × log2(charset), 1)
where the charset size is the sum over the classes actually present of
26 (lowercase) + 26 (uppercase) + 10 (digit) + 37 (the length of the
`SYMBOLS` string, whose raw-string backslashes make it 37 characters, not
32), and it equals 0.0 when no recognized class is present. -/
theorem entropy_formula_amended (pw : List Char) :
    charsetSize pw =
      (if pw.any pyIsLower then 26 else 0) +
      (if pw.any pyIsUpper then 26 else 0) +
      (if pw.any pyIsDigit then 10 else 0) +
      (if pw.any isSymbolChar then 37 else 0) ∧
    SYMBOLS.length = 37 ∧
    estimate_entropy_bits pw =
      (if charsetSize pw = 0 then 0
       else round1 ((pw.length : ℝ) * Real.logb 2 (charsetSize pw))) := by
  refine ⟨?_, by decide, rfl⟩
  unfold charsetSize
  rw [show SYMBOLS.length = 37 by decide]

end PasswordChecker
